import Mathlib

/-!
Verification development for the phonetic-word-predict suggestion engine
(`src/background.ts`).

The embedding models the core of `background.ts`:
  * the batched index build `buildAndStorePhoneticIndex` (word normalization,
    per-word phonetic encoding, batch accumulation, `writeBatch` bucket merges
    into the IndexedDB object store `phoneticMapStore`),
  * the per-algorithm query `suggestMatches` (normalize, encode, bucket lookup,
    Levenshtein ranking, truncation),
  * the aggregator `getAllSuggestions` (fan-out over settled per-searcher
    results, concatenation of fulfilled lists, `Set` deduplication, global
    Levenshtein re-ranking, final truncation),
  * the initialization path `initialize` / `_doInitialize` (cached promise,
    durable `dbInitialized_*` flag, build-on-first-run).

Modelling conventions:
  * A phonetic encoder (`this.activeAlgorithm`) is `String → Option String`;
    `none` models the encoder throwing for that input (the source catches the
    throw per word / per query).
  * The IndexedDB object store is `Store := String → List String`; a key that
    was never written holds `[]`.  A stored record's `words` array is never
    empty in the source, so "no record" and "record with empty words"
    coincide in the model.
  * JavaScript `Set` iteration order (insertion order, first occurrence kept)
    is modelled by `jsSetAdd` / `jsSetOfList`; JS `trim` / `toLowerCase` by
    the structural `jsTrim` / `jsToLower`; `fast-levenshtein`'s `get` by the
    row dynamic program `levString`.
  * Asynchronous effects are explicit data: a fetch of the word list is a
    `FetchOutcome`, a failing awaited batch write is a `flushFails` oracle
    (the source's `writeBatch` catches and logs such errors), and
    `Promise.allSettled` entries are `Settled` values.
  * `openDatabase` and `markAsInitialized` (the durable flag write) are
    modelled as succeeding.
-/

namespace PhoneticPredict

/-- JS `String.prototype.toLowerCase`, modelled per character. -/
def jsToLower (s : String) : String := ⟨s.data.map Char.toLower⟩

/-- JS `String.prototype.trim`: strip whitespace from both ends. -/
def jsTrim (s : String) : String :=
  ⟨((s.data.dropWhile Char.isWhitespace).reverse.dropWhile Char.isWhitespace).reverse⟩

/-- Adding one element to a JS `Set` (viewed as its iteration order): kept
only if not already present, appended at the end. -/
def jsSetAdd (l : List String) (w : String) : List String :=
  if w ∈ l then l else l ++ [w]

/-- `Array.from(new Set(l))`: deduplicate `l` keeping the first occurrence of
each element, in order. -/
def jsSetOfList (l : List String) : List String := l.foldl jsSetAdd []

/-- Inner loop of one row update of the Levenshtein dynamic program. -/
def levStepGo (x : Char) : List Char → List Nat → Nat → Nat → List Nat
  | [], _, _, _ => []
  | y :: ys, row, diag, left =>
    match row with
    | [] => []
    | r :: rest =>
      let cell := min (r + 1) (min (left + 1) (diag + (if x = y then 0 else 1)))
      cell :: levStepGo x ys rest r cell

/-- One row update of the Levenshtein dynamic program. -/
def levStep (x : Char) (ys : List Char) (row : List Nat) : List Nat :=
  match row with
  | [] => []
  | d :: rest => (d + 1) :: levStepGo x ys rest d (d + 1)

/-- Levenshtein edit distance (unit costs), the metric computed by
`fast-levenshtein`'s `levenshtein.get`. -/
def lev (xs ys : List Char) : Nat :=
  (xs.foldl (fun row x => levStep x ys row) (List.range (ys.length + 1))).getLastD 0

/-- `levenshtein.get` on strings. -/
def levString (a b : String) : Nat := lev a.data b.data

/-- The IndexedDB object store `phoneticMapStore` of one searcher, keyed by
`phoneticKey`; the value is the stored `words` array for that key. -/
abbrev Store := String → List String

/-- A store with no records. -/
def emptyStore : Store := fun _ => []

/-- One bucket write inside `writeBatch`: read the existing record for key
`c`; if present, `put` the deduplicated union `Array.from(new Set([...er.words,
...wta]))`; otherwise `add` the batch's words `wta` as they are. -/
def mergeWords (s : Store) (c : String) (wta : List String) : Store :=
  fun k => if k = c then (if s c = [] then wta else jsSetOfList (s c ++ wta)) else s k

/-- The in-memory batch `Map<string, Set<string>>`, in insertion order. -/
abbrev Batch := List (String × List String)

/-- `if (!batch.has(key)) batch.set(key, new Set()); batch.get(key)!.add(tw)`. -/
def batchAdd : Batch → String → String → Batch
  | [], key, tw => [(key, [tw])]
  | (k, ws) :: rest, key, tw =>
    if k = key then (k, jsSetAdd ws tw) :: rest else (k, ws) :: batchAdd rest key tw

/-- Model-level lookup: all words the batch holds for key `k`. -/
def batchWords : Batch → String → List String
  | [], _ => []
  | e :: rest, k => if e.1 = k then e.2 ++ batchWords rest k else batchWords rest k

/-- The effect of `writeBatch` when all awaited per-bucket writes succeed:
merge every batch entry into the store. -/
def writeBatchOnce (s : Store) (b : Batch) : Store :=
  b.foldl (fun s' e => mergeWords s' e.1 e.2) s

/-- `writeBatch` with its internal `try { await Promise.all(promises) } catch
(dbError) { console.error(...) }`: `n` is the 0-based index of this flush
during the build; `flushFails n = true` models the awaited writes of that
flush failing, in which case the IndexedDB transaction aborts (store
unchanged) and the error is logged and swallowed. -/
def writeBatchE (flushFails : Nat → Bool) (n : Nat) (s : Store) (b : Batch) : Store :=
  if b.length = 0 then s else if flushFails n then s else writeBatchOnce s b

/-- `const batchSize = 5000`. -/
def batchSize : Nat := 5000

/-- State of the word loop of `buildAndStorePhoneticIndex`: the store so far,
the in-memory batch, and how many flushes (`writeBatch` calls) happened. -/
structure LoopState where
  store : Store
  batch : Batch
  flushes : Nat

/-- One iteration of `for (const word of wordsArray)`:
`tw = word.trim()` (inlined below); skip if empty; `key =
activeAlgorithm(tw.toLowerCase())` — a throw (`none`) is caught and the word
skipped; a truthy (nonempty) key is added and may trigger a flush at
`batchSize`; an empty key is added without the flush check. -/
def processWord (encode : String → Option String) (flushFails : Nat → Bool)
    (st : LoopState) (word : String) : LoopState :=
  if jsTrim word = "" then st
  else
    match encode (jsToLower (jsTrim word)) with
    | none => st
    | some key =>
      if key = "" then { st with batch := batchAdd st.batch key (jsTrim word) }
      else if batchSize ≤ (batchAdd st.batch key (jsTrim word)).length then
        { store := writeBatchE flushFails st.flushes st.store (batchAdd st.batch key (jsTrim word)),
          batch := [], flushes := st.flushes + 1 }
      else { st with batch := batchAdd st.batch key (jsTrim word) }

/-- The word loop plus the final `if (batch.size > 0) { await writeBatch(batch) }`.
Returns the final store and the number of flushes attempted. -/
def buildWords (encode : String → Option String) (flushFails : Nat → Bool)
    (store0 : Store) (wordsArray : List String) : Store × Nat :=
  let st := wordsArray.foldl (processWord encode flushFails) ⟨store0, [], 0⟩
  if 0 < st.batch.length then (writeBatchE flushFails st.flushes st.store st.batch, st.flushes + 1)
  else (st.store, st.flushes)

/-- Outcome of obtaining the word list: `fetch` rejected, `!response.ok`,
`response.json()` not an array, or the parsed `wordsArray`. -/
inductive FetchOutcome where
  | fetchRejected
  | notOk (status : Nat)
  | invalidJson
  | ok (wordsArray : List String)

/-- The asynchronous environment of one build run. -/
structure BuildEnv where
  fetch : FetchOutcome
  flushFails : Nat → Bool

/-- `buildAndStorePhoneticIndex`: a fetch/parse failure is logged and
rethrown before anything is written; otherwise the batched build runs over
the fetched `wordsArray`. -/
def buildAndStorePhoneticIndex (encode : String → Option String) (env : BuildEnv)
    (store0 : Store) : Except String (Store × Nat) :=
  match env.fetch with
  | .fetchRejected => .error "Word list error"
  | .notOk status => .error ("Fetch failed: " ++ toString status)
  | .invalidJson => .error "Invalid JSON"
  | .ok wordsArray => .ok (buildWords encode env.flushFails store0 wordsArray)

/-- The all-writes-succeed oracle. -/
def noWriteFailures : Nat → Bool := fun _ => false

/-- A complete successful build of the index from an empty store. -/
def buildIndex (encode : String → Option String) (wordsArray : List String) : Store :=
  (buildWords encode noWriteFailures emptyStore wordsArray).1

/-- `const SUGGESTIONS_PER_METHOD = 5`. -/
def SUGGESTIONS_PER_METHOD : Nat := 5

/-- `const FINAL_SUGGESTION_LIMIT = 7`. -/
def FINAL_SUGGESTION_LIMIT : Nat := 7

/-- The queryable state of one `PhoneticSearcher`: its `isReady` flag, its
algorithm, and its object store (with `db` open). -/
structure SearcherState where
  isReady : Bool
  encode : String → Option String
  store : Store

/-- `suggestMatches(query, limit)`: guard on readiness, normalize the query
(`query?.toLowerCase().trim()`), encode it (a throw is caught and yields
`[]`), look the key up, rank candidates by Levenshtein distance to the
normalized query (stable ascending sort), and truncate to `limit`. -/
def suggestMatches (s : SearcherState) (query : String) (limit : Nat) : List String :=
  if s.isReady = false then []
  else
    if jsTrim (jsToLower query) = "" then []
    else
      match s.encode (jsTrim (jsToLower query)) with
      | none => []
      | some queryKey =>
        if (s.store queryKey).length = 0 then []
        else
          ((((s.store queryKey).map fun word =>
                (word, levString (jsTrim (jsToLower query)) (jsToLower word))).mergeSort
              fun a b => decide (a.2 ≤ b.2)).map fun item => item.1).take limit

/-- One entry of the `Promise.allSettled` result in `getAllSuggestions`. -/
inductive Settled where
  | fulfilled (value : List String)
  | rejected

/-- The candidate list a settled entry contributes: its value if fulfilled,
nothing if rejected. -/
def contributedList : Settled → List String
  | .fulfilled value => value
  | .rejected => []

/-- The `allResults.forEach` accumulation into `combined`: fulfilled arrays
are appended in order, rejected entries are logged and skipped. -/
def combineSettled (allResults : List Settled) : List String :=
  allResults.foldl
    (fun combined r =>
      match r with
      | Settled.fulfilled value => combined ++ value
      | Settled.rejected => combined) []

/-- `getAllSuggestions(query)` downstream of the fan-out: empty active set
short-circuits; fulfilled lists are combined, deduplicated by a `Set`,
re-ranked by Levenshtein distance to the normalized query (empty normalized
query short-circuits), and truncated to `FINAL_SUGGESTION_LIMIT`. -/
def getAllSuggestions (allResults : List Settled) (query : String) : List String :=
  if allResults.length = 0 then []
  else
    if jsTrim (jsToLower query) = "" then []
    else
      ((((jsSetOfList (combineSettled allResults)).map fun word =>
            (word, levString (jsTrim (jsToLower query)) (jsToLower word))).mergeSort
          fun a b => decide (a.2 ≤ b.2)).map fun item => item.1).take FINAL_SUGGESTION_LIMIT

/-- The per-instance task of the fan-out:
`await instance.initialize(); if (instance.getIsReady()) return
instance.suggestMatches(query, SUGGESTIONS_PER_METHOD); return []`.
A searcher whose initialization failed has a rejected stored promise, so its
task settles rejected. -/
def searcherTask (initOutcome : Except String Unit) (s : SearcherState) (query : String) :
    Settled :=
  match initOutcome with
  | .error _ => .rejected
  | .ok _ =>
    .fulfilled (if s.isReady then suggestMatches s query SUGGESTIONS_PER_METHOD else [])

/-- The full aggregator: dispatch the per-instance task to every active
searcher and combine the settled results. -/
def getAllSuggestionsRun (searchers : List (Except String Unit × SearcherState))
    (query : String) : List String :=
  getAllSuggestions (searchers.map fun p => searcherTask p.1 p.2 query) query

/-- Modelled from the spec (§4.5 steps 4–7), for the refinement comparison:
union all returned words into a single deduplicated set (case-sensitive
identity, first-seen order), recompute the edit distance of every unique word
against the normalized query, stable-sort ascending by that distance, and
truncate to the final limit; an empty normalized query short-circuits to
empty. -/
def specAggregate (query : String) (lists : List (List String)) : List String :=
  if jsTrim (jsToLower query) = "" then []
  else
    ((((jsSetOfList (lists.foldl (fun acc l => acc ++ l) [])).map fun word =>
          (word, levString (jsTrim (jsToLower query)) (jsToLower word))).mergeSort
        fun a b => decide (a.2 ≤ b.2)).map fun item => item.1).take FINAL_SUGGESTION_LIMIT

/-- The initialization-relevant state of one searcher: the in-memory
`isReady` / `isInitializing` flags, the durable `dbInitialized_*` flag read
by `checkIfInitialized` and written by `markAsInitialized`, and the object
store. -/
structure InitState where
  isReady : Bool
  isInitializing : Bool
  built : Bool
  store : Store

/-- `_doInitialize`: early-return if initializing or ready; open the DB
(modelled as succeeding); if the durable flag is unset, run the build and
then `markAsInitialized`; on a build error, clear readiness and rethrow. The
returned `Except` is the settlement of the `_doInitialize` promise. -/
def doInit (st : InitState) (encode : String → Option String) (env : BuildEnv) :
    InitState × Except String Unit :=
  if st.isInitializing || st.isReady then (st, .ok ())
  else if st.built then ({ st with isReady := true, isInitializing := false }, .ok ())
  else
    match buildAndStorePhoneticIndex encode env st.store with
    | .error e => ({ st with isReady := false, isInitializing := false }, .error e)
    | .ok res =>
      ({ isReady := true, isInitializing := false, built := true, store := res.1 }, .ok ())

/-- A process restart: the in-memory flags reset, the durable flag and the
persisted store survive. -/
def restartState (st : InitState) : InitState :=
  { isReady := false, isInitializing := false, built := st.built, store := st.store }

/-- A `PhoneticSearcher` together with its memoization cell
`this.initializationPromise`, modelled as the settled outcome of the first
run, plus a count of how many times the `_doInitialize` body ran. -/
structure SearcherMemo where
  storedPromise : Option (Except String Unit)
  st : InitState
  doInitRuns : Nat

/-- The public `initialize()`: return the stored promise if present,
otherwise run `_doInitialize`, store its settled outcome and return it.  The
constructor calls this immediately, so the stored promise is populated once
per process lifetime. -/
def initOnce (s : SearcherMemo) (encode : String → Option String) (env : BuildEnv) :
    SearcherMemo × Except String Unit :=
  match s.storedPromise with
  | some outcome => (s, outcome)
  | none =>
    (({ storedPromise := some (doInit s.st encode env).2,
        st := (doInit s.st encode env).1,
        doInitRuns := s.doInitRuns + 1 } : SearcherMemo), (doInit s.st encode env).2)

/-- Whether obtaining the word list failed (fetch rejection, non-OK response,
or non-array JSON). -/
def fetchFailedB : FetchOutcome → Bool
  | .ok _ => false
  | _ => true

/-! Basic lemmas about the JS `Set` model. -/

theorem mem_jsSetAdd {l : List String} {w x : String} :
    x ∈ jsSetAdd l w ↔ x ∈ l ∨ x = w := by
  unfold jsSetAdd
  by_cases h : w ∈ l
  · rw [if_pos h]
    exact ⟨Or.inl, fun hx => hx.elim id (fun e => e ▸ h)⟩
  · rw [if_neg h]
    simp

theorem nodup_jsSetAdd {l : List String} (h : l.Nodup) (w : String) : (jsSetAdd l w).Nodup := by
  unfold jsSetAdd
  by_cases hw : w ∈ l
  · rwa [if_pos hw]
  · rw [if_neg hw]
    simpa [List.concat_eq_append] using h.concat hw

theorem mem_foldl_jsSetAdd (l acc : List String) (x : String) :
    x ∈ l.foldl jsSetAdd acc ↔ x ∈ acc ∨ x ∈ l := by
  induction l generalizing acc with
  | nil => simp
  | cons a t ih =>
    rw [List.foldl_cons, ih, mem_jsSetAdd]
    simp [or_assoc, or_comm, eq_comm]
    tauto

theorem mem_jsSetOfList {l : List String} {x : String} : x ∈ jsSetOfList l ↔ x ∈ l := by
  unfold jsSetOfList
  rw [mem_foldl_jsSetAdd]
  simp

theorem nodup_foldl_jsSetAdd (l : List String) (acc : List String) (h : acc.Nodup) :
    (l.foldl jsSetAdd acc).Nodup := by
  induction l generalizing acc with
  | nil => simpa
  | cons a t ih => exact ih _ (nodup_jsSetAdd h a)

theorem nodup_jsSetOfList (l : List String) : (jsSetOfList l).Nodup :=
  nodup_foldl_jsSetAdd l [] List.nodup_nil

theorem foldl_jsSetAdd_of_subset (l acc : List String) (h : ∀ x ∈ l, x ∈ acc) :
    l.foldl jsSetAdd acc = acc := by
  induction l generalizing acc with
  | nil => rfl
  | cons a t ih =>
    have ha : a ∈ acc := h a (List.mem_cons_self a t)
    have hadd : jsSetAdd acc a = acc := by unfold jsSetAdd; rw [if_pos ha]
    rw [List.foldl_cons, hadd]
    exact ih acc fun x hx => h x (List.mem_cons_of_mem _ hx)

theorem foldl_jsSetAdd_append (l acc : List String) (h : (acc ++ l).Nodup) :
    l.foldl jsSetAdd acc = acc ++ l := by
  induction l generalizing acc with
  | nil => simp
  | cons a t ih =>
    have ha : a ∉ acc := fun hmem =>
      (List.nodup_append.mp h).2.2 hmem (List.mem_cons_self a t)
    have hadd : jsSetAdd acc a = acc ++ [a] := by unfold jsSetAdd; rw [if_neg ha]
    rw [List.foldl_cons, hadd, ih (acc ++ [a]) (by simpa using h)]
    simp

theorem jsSetOfList_eq_self {l : List String} (h : l.Nodup) : jsSetOfList l = l := by
  unfold jsSetOfList
  simpa using foldl_jsSetAdd_append l [] (by simpa using h)

theorem jsSetOfList_append (l1 l2 : List String) :
    jsSetOfList (l1 ++ l2) = l2.foldl jsSetAdd (jsSetOfList l1) := by
  unfold jsSetOfList
  rw [List.foldl_append]

/-! Lemmas about `mergeWords`, batches and `writeBatch`. -/

theorem mem_mergeWords {s : Store} {c : String} {ws : List String} {k x : String} :
    x ∈ mergeWords s c ws k ↔ x ∈ s k ∨ (k = c ∧ x ∈ ws) := by
  unfold mergeWords
  by_cases hk : k = c
  · subst hk
    rw [if_pos rfl]
    by_cases h0 : s k = []
    · rw [if_pos h0, h0]
      simp
    · rw [if_neg h0, mem_jsSetOfList]
      simp
  · rw [if_neg hk]
    simp [hk]

theorem nodup_mergeWords {s : Store} {c : String} {ws : List String}
    (hs : ∀ k, (s k).Nodup) (hw : ws.Nodup) (k : String) : (mergeWords s c ws k).Nodup := by
  unfold mergeWords
  by_cases hk : k = c
  · rw [if_pos hk]
    by_cases h0 : s c = []
    · rwa [if_pos h0]
    · rw [if_neg h0]
      exact nodup_jsSetOfList _
  · rw [if_neg hk]
    exact hs k

theorem mem_batchWords_batchAdd {b : Batch} {key tw k x : String} :
    x ∈ batchWords (batchAdd b key tw) k ↔ x ∈ batchWords b k ∨ (k = key ∧ x = tw) := by
  induction b with
  | nil =>
    by_cases hk : key = k <;> simp [batchAdd, batchWords, hk, eq_comm]
  | cons e rest ih =>
    obtain ⟨k0, ws⟩ := e
    by_cases h0 : k0 = key
    · subst h0
      by_cases hk : k0 = k
      · subst hk
        simp [batchAdd, batchWords, mem_jsSetAdd]
        tauto
      · have hke : ¬k = k0 := fun h => hk h.symm
        simp [batchAdd, batchWords, hk, hke]
    · have hadd : batchAdd ((k0, ws) :: rest) key tw = (k0, ws) :: batchAdd rest key tw := by
        simp [batchAdd, h0]
      rw [hadd]
      by_cases hk : k0 = k
      · rw [show batchWords ((k0, ws) :: batchAdd rest key tw) k
              = ws ++ batchWords (batchAdd rest key tw) k from by simp [batchWords, hk],
          show batchWords ((k0, ws) :: rest) k = ws ++ batchWords rest k from by
            simp [batchWords, hk]]
        simp only [List.mem_append, ih]
        tauto
      · rw [show batchWords ((k0, ws) :: batchAdd rest key tw) k
              = batchWords (batchAdd rest key tw) k from by simp [batchWords, hk],
          show batchWords ((k0, ws) :: rest) k = batchWords rest k from by simp [batchWords, hk]]
        exact ih

theorem nodup_batchAdd {b : Batch} (h : ∀ e ∈ b, (e.2).Nodup) (key tw : String) :
    ∀ e ∈ batchAdd b key tw, (e.2).Nodup := by
  induction b with
  | nil =>
    intro e he
    simp [batchAdd] at he
    subst he
    exact List.nodup_singleton _
  | cons f rest ih =>
    obtain ⟨k0, ws⟩ := f
    intro e he
    by_cases h0 : k0 = key
    · simp [batchAdd, h0] at he
      rcases he with he | he
      · subst he
        exact nodup_jsSetAdd (h ⟨k0, ws⟩ (List.mem_cons_self _ _)) tw
      · exact h e (List.mem_cons_of_mem _ he)
    · simp [batchAdd, h0] at he
      rcases he with he | he
      · subst he
        exact h ⟨k0, ws⟩ (List.mem_cons_self _ _)
      · exact ih (fun e' he' => h e' (List.mem_cons_of_mem _ he')) e he

theorem mem_writeBatchOnce {b : Batch} {s : Store} {k x : String} :
    x ∈ writeBatchOnce s b k ↔ x ∈ s k ∨ x ∈ batchWords b k := by
  induction b generalizing s with
  | nil => simp [writeBatchOnce, batchWords]
  | cons e rest ih =>
    show x ∈ writeBatchOnce (mergeWords s e.1 e.2) rest k ↔ _
    rw [ih, mem_mergeWords]
    by_cases he : e.1 = k
    · simp [batchWords, he, eq_comm]
      tauto
    · have hke : ¬k = e.1 := fun h => he h.symm
      simp [batchWords, he, hke]

theorem nodup_writeBatchOnce {b : Batch} {s : Store}
    (hs : ∀ k, (s k).Nodup) (hb : ∀ e ∈ b, (e.2).Nodup) :
    ∀ k, (writeBatchOnce s b k).Nodup := by
  induction b generalizing s with
  | nil => exact hs
  | cons e rest ih =>
    intro k
    show (writeBatchOnce (mergeWords s e.1 e.2) rest k).Nodup
    exact ih (fun k' => nodup_mergeWords hs (hb e (List.mem_cons_self _ _)) k')
      (fun e' he' => hb e' (List.mem_cons_of_mem _ he')) k

theorem writeBatchE_no_failures (n : Nat) (s : Store) (b : Batch) :
    writeBatchE noWriteFailures n s b = writeBatchOnce s b := by
  unfold writeBatchE noWriteFailures
  by_cases h : b.length = 0
  · rw [if_pos h]
    have hb : b = [] := List.length_eq_zero.mp h
    subst hb
    rfl
  · rw [if_neg h]
    simp

theorem nodup_writeBatchE {flushFails : Nat → Bool} {n : Nat} {b : Batch} {s : Store}
    (hs : ∀ k, (s k).Nodup) (hb : ∀ e ∈ b, (e.2).Nodup) :
    ∀ k, (writeBatchE flushFails n s b k).Nodup := by
  unfold writeBatchE
  intro k
  split
  · exact hs k
  · split
    · exact hs k
    · exact nodup_writeBatchOnce hs hb k

/-! Membership and Nodup invariants of the build loop. -/

/-- What the loop state holds for code `c`: either already in the store or in
the pending batch. -/
def stateMem (st : LoopState) (c x : String) : Prop :=
  x ∈ st.store c ∨ x ∈ batchWords st.batch c

/-- What one source word contributes to bucket `c`: its trimmed surface form,
provided the trim is nonempty and the encoder maps its lower-casing to `c`. -/
def contributes (encode : String → Option String) (word c x : String) : Prop :=
  x = jsTrim word ∧ jsTrim word ≠ "" ∧ encode (jsToLower (jsTrim word)) = some c

theorem processWord_trim_empty (encode : String → Option String) (flushFails : Nat → Bool)
    (st : LoopState) {word : String} (h1 : jsTrim word = "") :
    processWord encode flushFails st word = st := by
  simp [processWord, h1]

theorem processWord_enc_throws (encode : String → Option String) (flushFails : Nat → Bool)
    (st : LoopState) {word : String} (h1 : ¬jsTrim word = "")
    (henc : encode (jsToLower (jsTrim word)) = none) :
    processWord encode flushFails st word = st := by
  simp [processWord, h1, henc]

theorem processWord_empty_key (encode : String → Option String) (flushFails : Nat → Bool)
    (st : LoopState) {word : String} (h1 : ¬jsTrim word = "")
    (henc : encode (jsToLower (jsTrim word)) = some "") :
    processWord encode flushFails st word =
      { st with batch := batchAdd st.batch "" (jsTrim word) } := by
  simp [processWord, h1, henc]

theorem processWord_flush (encode : String → Option String) (flushFails : Nat → Bool)
    (st : LoopState) {word key : String} (h1 : ¬jsTrim word = "")
    (henc : encode (jsToLower (jsTrim word)) = some key) (hkey : ¬key = "")
    (hsz : batchSize ≤ (batchAdd st.batch key (jsTrim word)).length) :
    processWord encode flushFails st word =
      { store := writeBatchE flushFails st.flushes st.store (batchAdd st.batch key (jsTrim word)),
        batch := [], flushes := st.flushes + 1 } := by
  simp [processWord, h1, henc, hkey, hsz]

theorem processWord_no_flush (encode : String → Option String) (flushFails : Nat → Bool)
    (st : LoopState) {word key : String} (h1 : ¬jsTrim word = "")
    (henc : encode (jsToLower (jsTrim word)) = some key) (hkey : ¬key = "")
    (hsz : ¬batchSize ≤ (batchAdd st.batch key (jsTrim word)).length) :
    processWord encode flushFails st word =
      { st with batch := batchAdd st.batch key (jsTrim word) } := by
  simp [processWord, h1, henc, hkey, hsz]

theorem stateMem_processWord (encode : String → Option String) (st : LoopState)
    (word c x : String) :
    stateMem (processWord encode noWriteFailures st word) c x ↔
      stateMem st c x ∨ contributes encode word c x := by
  by_cases h1 : jsTrim word = ""
  · rw [processWord_trim_empty encode noWriteFailures st h1]
    simp [contributes, h1]
  · rcases henc : encode (jsToLower (jsTrim word)) with _ | key
    · rw [processWord_enc_throws encode noWriteFailures st h1 henc]
      simp [contributes, henc, h1]
    · have hr : contributes encode word c x ↔ (c = key ∧ x = jsTrim word) := by
        unfold contributes
        rw [henc]
        constructor
        · rintro ⟨hx, -, hk⟩
          exact ⟨(Option.some_inj.mp hk).symm, hx⟩
        · rintro ⟨hc, hx⟩
          exact ⟨hx, h1, by rw [hc]⟩
      rw [hr]
      by_cases hkey : key = ""
      · subst hkey
        rw [processWord_empty_key encode noWriteFailures st h1 henc]
        simp only [stateMem]
        rw [mem_batchWords_batchAdd]
        tauto
      · by_cases hsz : batchSize ≤ (batchAdd st.batch key (jsTrim word)).length
        · rw [processWord_flush encode noWriteFailures st h1 henc hkey hsz]
          simp only [stateMem, batchWords, writeBatchE_no_failures, mem_writeBatchOnce,
            mem_batchWords_batchAdd, List.not_mem_nil, or_false]
          tauto
        · rw [processWord_no_flush encode noWriteFailures st h1 henc hkey hsz]
          simp only [stateMem]
          rw [mem_batchWords_batchAdd]
          tauto

theorem stateMem_foldl (encode : String → Option String) (ws : List String)
    (st : LoopState) (c x : String) :
    stateMem (ws.foldl (processWord encode noWriteFailures) st) c x ↔
      stateMem st c x ∨ ∃ w ∈ ws, contributes encode w c x := by
  induction ws generalizing st with
  | nil => simp
  | cons a t ih =>
    rw [List.foldl_cons, ih, stateMem_processWord]
    simp only [List.mem_cons]
    constructor
    · rintro ((h | h) | ⟨w, hw, h⟩)
      · exact Or.inl h
      · exact Or.inr ⟨a, Or.inl rfl, h⟩
      · exact Or.inr ⟨w, Or.inr hw, h⟩
    · rintro (h | ⟨w, (rfl | hw), h⟩)
      · exact Or.inl (Or.inl h)
      · exact Or.inl (Or.inr h)
      · exact Or.inr ⟨w, hw, h⟩

theorem mem_buildWords (encode : String → Option String) (ws : List String)
    (store0 : Store) (c x : String) :
    x ∈ (buildWords encode noWriteFailures store0 ws).1 c ↔
      x ∈ store0 c ∨ ∃ w ∈ ws, contributes encode w c x := by
  unfold buildWords
  have hfold := stateMem_foldl encode ws ⟨store0, [], 0⟩ c x
  simp only [stateMem, batchWords] at hfold
  set st := ws.foldl (processWord encode noWriteFailures) ⟨store0, [], 0⟩ with hst
  by_cases h : 0 < st.batch.length
  · rw [if_pos h]
    show x ∈ writeBatchE noWriteFailures st.flushes st.store st.batch c ↔ _
    rw [writeBatchE_no_failures, mem_writeBatchOnce]
    rw [show (x ∈ st.store c ∨ x ∈ batchWords st.batch c) ↔ _ from hfold]
    simp
  · rw [if_neg h]
    have hb : st.batch = [] := by
      cases hb' : st.batch with
      | nil => rfl
      | cons e t => rw [hb'] at h; simp at h
    rw [hb] at hfold
    simp only [batchWords, List.not_mem_nil, or_false] at hfold
    exact hfold

theorem mem_buildIndex (encode : String → Option String) (ws : List String) (c x : String) :
    x ∈ buildIndex encode ws c ↔ ∃ w ∈ ws, contributes encode w c x := by
  unfold buildIndex
  rw [mem_buildWords]
  simp [emptyStore]

theorem nodupInv_processWord (encode : String → Option String) (flushFails : Nat → Bool)
    {st : LoopState} (hs : ∀ k, (st.store k).Nodup) (hb : ∀ e ∈ st.batch, (e.2).Nodup)
    (word : String) :
    (∀ k, ((processWord encode flushFails st word).store k).Nodup) ∧
      ∀ e ∈ (processWord encode flushFails st word).batch, (e.2).Nodup := by
  by_cases h1 : jsTrim word = ""
  · rw [processWord_trim_empty encode flushFails st h1]
    exact ⟨hs, hb⟩
  · rcases henc : encode (jsToLower (jsTrim word)) with _ | key
    · rw [processWord_enc_throws encode flushFails st h1 henc]
      exact ⟨hs, hb⟩
    · by_cases hkey : key = ""
      · subst hkey
        rw [processWord_empty_key encode flushFails st h1 henc]
        exact ⟨hs, nodup_batchAdd hb "" (jsTrim word)⟩
      · by_cases hsz : batchSize ≤ (batchAdd st.batch key (jsTrim word)).length
        · rw [processWord_flush encode flushFails st h1 henc hkey hsz]
          refine ⟨fun k => ?_, by simp⟩
          exact nodup_writeBatchE hs (nodup_batchAdd hb key (jsTrim word)) k
        · rw [processWord_no_flush encode flushFails st h1 henc hkey hsz]
          exact ⟨hs, nodup_batchAdd hb key (jsTrim word)⟩

theorem nodupInv_foldl (encode : String → Option String) (flushFails : Nat → Bool)
    (ws : List String) {st : LoopState} (hs : ∀ k, (st.store k).Nodup)
    (hb : ∀ e ∈ st.batch, (e.2).Nodup) :
    (∀ k, ((ws.foldl (processWord encode flushFails) st).store k).Nodup) ∧
      ∀ e ∈ (ws.foldl (processWord encode flushFails) st).batch, (e.2).Nodup := by
  induction ws generalizing st with
  | nil => exact ⟨hs, hb⟩
  | cons a t ih =>
    rw [List.foldl_cons]
    have h := nodupInv_processWord encode flushFails hs hb a
    exact ih h.1 h.2

theorem nodup_buildWords (encode : String → Option String) (flushFails : Nat → Bool)
    (ws : List String) {store0 : Store} (hs : ∀ k, (store0 k).Nodup) (c : String) :
    ((buildWords encode flushFails store0 ws).1 c).Nodup := by
  unfold buildWords
  have h := @nodupInv_foldl encode flushFails ws ⟨store0, [], 0⟩ hs (by simp)
  set st := ws.foldl (processWord encode flushFails) ⟨store0, [], 0⟩
  by_cases hlen : 0 < st.batch.length
  · rw [if_pos hlen]
    exact nodup_writeBatchE h.1 h.2 c
  · rw [if_neg hlen]
    exact h.1 c

theorem nodup_buildIndex (encode : String → Option String) (ws : List String) (c : String) :
    (buildIndex encode ws c).Nodup :=
  nodup_buildWords encode noWriteFailures ws (by simp [emptyStore]) c

/-! The shared rank-and-truncate pipeline: pair each candidate with its
distance, stable-sort ascending by distance, project the words, truncate. -/

/-- The ranking pipeline applied by both `suggestMatches` and
`getAllSuggestions` to a candidate list `l` under distance function `d`. -/
def rankPipeline (d : String → Nat) (l : List String) (n : Nat) : List String :=
  (((l.map fun word => (word, d word)).mergeSort fun a b => decide (a.2 ≤ b.2)).map
    fun item => item.1).take n

theorem rankPipeline_length (d : String → Nat) (l : List String) (n : Nat) :
    (rankPipeline d l n).length ≤ n := by
  unfold rankPipeline
  rw [List.length_take]
  exact min_le_left _ _

theorem rankPipeline_snd (d : String → Nat) (l : List String) :
    ∀ p ∈ (l.map fun word => (word, d word)).mergeSort fun a b => decide (a.2 ≤ b.2),
      p.2 = d p.1 := by
  intro p hp
  have hp' : p ∈ l.map fun word => (word, d word) :=
    (List.mergeSort_perm (l.map fun word => (word, d word)) _).mem_iff.mp hp
  obtain ⟨w, -, rfl⟩ := List.mem_map.mp hp'
  rfl

theorem rankPipeline_sorted (d : String → Nat) (l : List String) (n : Nat) :
    (rankPipeline d l n).Pairwise fun a b => d a ≤ d b := by
  unfold rankPipeline
  refine List.Pairwise.sublist (List.take_sublist _ _) ?_
  rw [List.pairwise_map]
  have hsorted := @List.sorted_mergeSort (String × Nat)
    (fun a b => decide (a.2 ≤ b.2))
    (fun a b c hab hbc => by
      simp only [decide_eq_true_eq] at *
      omega)
    (fun a b => by
      simp only [Bool.or_eq_true, decide_eq_true_eq]
      omega)
    (l.map fun word => (word, d word))
  refine hsorted.imp_of_mem ?_
  intro a b ha hb hab
  have h2a := rankPipeline_snd d l a ha
  have h2b := rankPipeline_snd d l b hb
  simp only [decide_eq_true_eq] at hab
  rw [h2a, h2b] at hab
  exact hab

theorem rankPipeline_nodup (d : String → Nat) {l : List String} (hl : l.Nodup) (n : Nat) :
    (rankPipeline d l n).Nodup := by
  unfold rankPipeline
  refine List.Nodup.sublist (List.take_sublist _ _) ?_
  have hmap : (l.map fun word => (word, d word)).Nodup :=
    hl.map_on fun x _ y _ h => congrArg Prod.fst h
  have hsortnd : ((l.map fun word => (word, d word)).mergeSort
      fun a b => decide (a.2 ≤ b.2)).Nodup :=
    (List.mergeSort_perm (l.map fun word => (word, d word)) _).symm.nodup hmap
  refine hsortnd.map_on ?_
  intro p hp q hq hpq
  have h2p := rankPipeline_snd d l p hp
  have h2q := rankPipeline_snd d l q hq
  have : p = (p.1, d p.1) := by rw [← h2p]
  rw [this, Prod.mk.injEq]
  have : q = (q.1, d q.1) := by rw [← h2q]
  rw [this] at hpq ⊢
  exact ⟨hpq, by rw [hpq]⟩

theorem rankPipeline_mem (d : String → Nat) (l : List String) (n : Nat) :
    ∀ w ∈ rankPipeline d l n, w ∈ l := by
  unfold rankPipeline
  intro w hw
  have hw1 := (List.take_sublist _ _).mem hw
  obtain ⟨p, hp, rfl⟩ := List.mem_map.mp hw1
  have hp' : p ∈ l.map fun word => (word, d word) :=
    (List.mergeSort_perm (l.map fun word => (word, d word)) _).mem_iff.mp hp
  obtain ⟨v, hv, rfl⟩ := List.mem_map.mp hp'
  exact hv

/-! Helper lemmas about `suggestMatches`. -/

theorem suggestMatches_cases (s : SearcherState) (query : String) (limit : Nat) :
    suggestMatches s query limit = [] ∨
      ∃ queryKey, s.encode (jsTrim (jsToLower query)) = some queryKey ∧
        suggestMatches s query limit =
          rankPipeline (fun w => levString (jsTrim (jsToLower query)) (jsToLower w))
            (s.store queryKey) limit := by
  by_cases h1 : s.isReady = false
  · left
    simp [suggestMatches, h1]
  · by_cases h2 : jsTrim (jsToLower query) = ""
    · left
      simp [suggestMatches, h1, h2]
    · rcases henc : s.encode (jsTrim (jsToLower query)) with _ | k
      · left
        simp [suggestMatches, h1, h2, henc]
      · by_cases h3 : (s.store k).length = 0
        · left
          simp [suggestMatches, h1, h2, henc, h3]
        · right
          exact ⟨k, rfl, by simp [suggestMatches, h1, h2, henc, h3, rankPipeline]⟩

theorem suggestMatches_length_le (s : SearcherState) (query : String) (limit : Nat) :
    (suggestMatches s query limit).length ≤ limit := by
  rcases suggestMatches_cases s query limit with h | ⟨k, -, h⟩
  · simp [h]
  · rw [h]
    exact rankPipeline_length _ _ _

theorem suggestMatches_pairwise (s : SearcherState) (query : String) (limit : Nat) :
    (suggestMatches s query limit).Pairwise fun a b =>
      levString (jsTrim (jsToLower query)) (jsToLower a) ≤
        levString (jsTrim (jsToLower query)) (jsToLower b) := by
  rcases suggestMatches_cases s query limit with h | ⟨k, -, h⟩
  · rw [h]
    exact List.Pairwise.nil
  · rw [h]
    exact rankPipeline_sorted _ _ _

theorem suggestMatches_mem (s : SearcherState) (query : String) (limit : Nat) :
    ∀ w ∈ suggestMatches s query limit,
      ∃ k, s.encode (jsTrim (jsToLower query)) = some k ∧ w ∈ s.store k := by
  rcases suggestMatches_cases s query limit with h | ⟨k, henc, h⟩ <;> rw [h]
  · simp
  · intro w hw
    exact ⟨k, henc, rankPipeline_mem _ _ _ w hw⟩

/-! Helper lemmas about the aggregator. -/

theorem combineSettled_aux (rs : List Settled) (acc : List String) :
    rs.foldl
        (fun combined r =>
          match r with
          | Settled.fulfilled value => combined ++ value
          | Settled.rejected => combined) acc
      = acc ++ (rs.map contributedList).flatten := by
  induction rs generalizing acc with
  | nil => simp
  | cons r t ih =>
    cases r with
    | fulfilled v =>
      rw [List.foldl_cons, ih]
      simp [contributedList]
    | rejected =>
      rw [List.foldl_cons, ih]
      simp [contributedList]

theorem combineSettled_eq_flatten (rs : List Settled) :
    combineSettled rs = (rs.map contributedList).flatten := by
  unfold combineSettled
  rw [combineSettled_aux]
  simp

theorem mem_combineSettled {rs : List Settled} {x : String} :
    x ∈ combineSettled rs ↔ ∃ r ∈ rs, x ∈ contributedList r := by
  rw [combineSettled_eq_flatten]
  simp [List.mem_flatten]

theorem foldl_append_eq_flatten (lists : List (List String)) (acc : List String) :
    lists.foldl (fun a l => a ++ l) acc = acc ++ lists.flatten := by
  induction lists generalizing acc with
  | nil => simp
  | cons l t ih =>
    rw [List.foldl_cons, ih]
    simp

theorem getAll_eq_specAggregate (rs : List Settled) (query : String) :
    getAllSuggestions rs query = specAggregate query (rs.map contributedList) := by
  unfold getAllSuggestions specAggregate
  rw [combineSettled_eq_flatten, foldl_append_eq_flatten]
  simp only [List.nil_append]
  by_cases h1 : rs.length = 0
  · have hrs : rs = [] := List.length_eq_zero.mp h1
    subst hrs
    simp [jsSetOfList]
  · rw [if_neg h1]

theorem getAllSuggestions_cases (rs : List Settled) (query : String) :
    getAllSuggestions rs query = [] ∨
      getAllSuggestions rs query =
        rankPipeline (fun w => levString (jsTrim (jsToLower query)) (jsToLower w))
          (jsSetOfList (combineSettled rs)) FINAL_SUGGESTION_LIMIT := by
  unfold getAllSuggestions
  by_cases h1 : rs.length = 0
  · left
    simp [h1]
  · by_cases h2 : jsTrim (jsToLower query) = ""
    · left
      simp [h1, h2]
    · right
      simp [h1, h2, rankPipeline]

theorem getAllSuggestions_length_le (rs : List Settled) (query : String) :
    (getAllSuggestions rs query).length ≤ FINAL_SUGGESTION_LIMIT := by
  rcases getAllSuggestions_cases rs query with h | h <;> rw [h]
  · simp
  · exact rankPipeline_length _ _ _

theorem getAllSuggestions_pairwise (rs : List Settled) (query : String) :
    (getAllSuggestions rs query).Pairwise fun a b =>
      levString (jsTrim (jsToLower query)) (jsToLower a) ≤
        levString (jsTrim (jsToLower query)) (jsToLower b) := by
  rcases getAllSuggestions_cases rs query with h | h <;> rw [h]
  · exact List.Pairwise.nil
  · exact rankPipeline_sorted _ _ _

theorem getAllSuggestions_nodup (rs : List Settled) (query : String) :
    (getAllSuggestions rs query).Nodup := by
  rcases getAllSuggestions_cases rs query with h | h <;> rw [h]
  · exact List.nodup_nil
  · exact rankPipeline_nodup _ (nodup_jsSetOfList _) _

theorem getAllSuggestions_mem (rs : List Settled) (query : String) :
    ∀ w ∈ getAllSuggestions rs query, ∃ r ∈ rs, w ∈ contributedList r := by
  rcases getAllSuggestions_cases rs query with h | h <;> rw [h]
  · simp
  · intro w hw
    exact mem_combineSettled.mp (mem_jsSetOfList.mp (rankPipeline_mem _ _ _ w hw))

/-! Helper lemmas about `mergeWords` as an idempotent union. -/

theorem mergeWords_self_eval (s : Store) (c : String) (ws : List String) :
    mergeWords s c ws c = if s c = [] then ws else jsSetOfList (s c ++ ws) := by
  unfold mergeWords
  rw [if_pos rfl]

theorem mergeWords_other_eval (s : Store) {c k : String} (ws : List String) (h : ¬k = c) :
    mergeWords s c ws k = s k := by
  unfold mergeWords
  rw [if_neg h]

theorem nodup_mergeWords_self (s : Store) (c : String) {ws : List String} (hw : ws.Nodup) :
    (mergeWords s c ws c).Nodup := by
  rw [mergeWords_self_eval]
  by_cases h0 : s c = []
  · rwa [if_pos h0]
  · rw [if_neg h0]
    exact nodup_jsSetOfList _

theorem mergeWords_absorb (s : Store) (c : String) (S T : List String)
    (hS : S.Nodup) (hT : ∀ x ∈ T, x ∈ S) :
    mergeWords (mergeWords s c S) c T = mergeWords s c S := by
  have hb1nd : (mergeWords s c S c).Nodup := nodup_mergeWords_self s c hS
  have hTb1 : ∀ x ∈ T, x ∈ mergeWords s c S c := fun x hx =>
    mem_mergeWords.mpr (Or.inr ⟨rfl, hT x hx⟩)
  funext k
  by_cases hk : k = c
  · subst hk
    rw [mergeWords_self_eval]
    by_cases h0 : mergeWords s k S k = []
    · rw [if_pos h0]
      have hTnil : T = [] := by
        cases T with
        | nil => rfl
        | cons t ts =>
          exact absurd (hTb1 t (List.mem_cons_self t ts)) (by rw [h0]; simp)
      rw [hTnil, h0]
    · rw [if_neg h0, jsSetOfList_append, jsSetOfList_eq_self hb1nd,
        foldl_jsSetAdd_of_subset T _ hTb1]
  · rw [mergeWords_other_eval _ _ hk, mergeWords_other_eval _ _ hk]

/-! The ten claims. -/

/-- C1: For every query, if one active Searcher's task settles rejected (its
suggest task threw, in particular because its stored `initialize()` promise
— the Failed state — rejected), `getAllSuggestions` still returns the
deduplicated, distance-ranked, truncated result computed from the remaining
fulfilled candidate lists: the failing entry contributes exactly the empty
list, the other entries' results are not omitted, and no exception escapes
(the model function is total). -/
theorem aggregator_partial_failure (pre post : List Settled) (query : String) :
    getAllSuggestions (pre ++ Settled.rejected :: post) query
      = getAllSuggestions (pre ++ Settled.fulfilled [] :: post) query ∧
    getAllSuggestions (pre ++ Settled.rejected :: post) query
      = specAggregate query
          (pre.map contributedList ++ ([] : List String) :: post.map contributedList) ∧
    ∀ e s, searcherTask (Except.error e) s query = Settled.rejected := by
  have h2 : getAllSuggestions (pre ++ Settled.rejected :: post) query
      = specAggregate query
          (pre.map contributedList ++ ([] : List String) :: post.map contributedList) := by
    rw [getAll_eq_specAggregate]
    congr 1
    simp [contributedList]
  have h1 : getAllSuggestions (pre ++ Settled.rejected :: post) query
      = getAllSuggestions (pre ++ Settled.fulfilled [] :: post) query := by
    rw [h2, getAll_eq_specAggregate]
    congr 1
    simp [contributedList]
  exact ⟨h1, h2, fun e s => rfl⟩

/-- C4: For every query and collection of settled per-searcher results, the
aggregator's output equals the spec pipeline (union with case-sensitive
identity so a word returned by several searchers appears once, recompute the
distance of every unique word to the normalized query, stable-sort ascending,
truncate to the final limit); consequently the output is duplicate-free,
ascending by the recomputed distance, at most `FINAL_SUGGESTION_LIMIT` long,
and drawn from the fulfilled lists. -/
theorem getAllSuggestions_spec (rs : List Settled) (query : String) :
    getAllSuggestions rs query = specAggregate query (rs.map contributedList) ∧
    (getAllSuggestions rs query).Nodup ∧
    ((getAllSuggestions rs query).Pairwise fun a b =>
      levString (jsTrim (jsToLower query)) (jsToLower a) ≤
        levString (jsTrim (jsToLower query)) (jsToLower b)) ∧
    (getAllSuggestions rs query).length ≤ FINAL_SUGGESTION_LIMIT ∧
    ∀ w ∈ getAllSuggestions rs query, ∃ r ∈ rs, w ∈ contributedList r :=
  ⟨getAll_eq_specAggregate rs query, getAllSuggestions_nodup rs query,
    getAllSuggestions_pairwise rs query, getAllSuggestions_length_le rs query,
    getAllSuggestions_mem rs query⟩

/-- C5: For every query, limit and searcher state (readiness flag, encoder
and stored index), `suggestMatches` returns at most `limit` words, in
ascending order of edit distance between the normalized query and each
lower-cased candidate. -/
theorem suggestMatches_bounded_sorted (s : SearcherState) (query : String) (limit : Nat) :
    (suggestMatches s query limit).length ≤ limit ∧
    ((suggestMatches s query limit).Pairwise fun a b =>
      levString (jsTrim (jsToLower query)) (jsToLower a) ≤
        levString (jsTrim (jsToLower query)) (jsToLower b)) :=
  ⟨suggestMatches_length_le s query limit, suggestMatches_pairwise s query limit⟩

/-- C10: The aggregate query's bounds are the fixed constants
`FINAL_SUGGESTION_LIMIT = 7` and `SUGGESTIONS_PER_METHOD = 5`, not caller
parameters: every aggregate result has at most 7 words, and every
per-algorithm task calls `suggestMatches` with limit 5, so contributes at
most 5 words. -/
theorem suggestion_limits_constant :
    FINAL_SUGGESTION_LIMIT = 7 ∧ SUGGESTIONS_PER_METHOD = 5 ∧
    (∀ rs query, (getAllSuggestions rs query).length ≤ 7) ∧
    (∀ searchers query, (getAllSuggestionsRun searchers query).length ≤ 7) ∧
    ∀ initOutcome s query, (contributedList (searcherTask initOutcome s query)).length ≤ 5 := by
  refine ⟨rfl, rfl, fun rs query => getAllSuggestions_length_le rs query,
    fun searchers query => getAllSuggestions_length_le _ _, fun initOutcome s query => ?_⟩
  cases initOutcome with
  | error e => simp [searcherTask, contributedList]
  | ok u =>
    simp only [searcherTask, contributedList]
    by_cases h : s.isReady
    · rw [if_pos h]
      exact suggestMatches_length_le s query SUGGESTIONS_PER_METHOD
    · rw [if_neg h]
      simp

/-- C9: Every word returned by `suggestMatches` over a built index is the
trimmed, original-casing surface form of some word of the source list the
index was built from; and the aggregate output preserves this whenever every
fulfilled per-searcher list does (as the per-searcher lists produced by
`suggestMatches` over indexes built from the shared source list do). -/
theorem returned_words_come_from_source (encode : String → Option String)
    (wordsArray : List String) (query : String) (limit : Nat) (b : Bool)
    (rs : List Settled)
    (hrs : ∀ r ∈ rs, ∀ w ∈ contributedList r, ∃ v ∈ wordsArray, w = jsTrim v) :
    (∀ w ∈ suggestMatches ⟨b, encode, buildIndex encode wordsArray⟩ query limit,
        ∃ v ∈ wordsArray, w = jsTrim v) ∧
    ∀ w ∈ getAllSuggestions rs query, ∃ v ∈ wordsArray, w = jsTrim v := by
  constructor
  · intro w hw
    obtain ⟨k, -, hwk⟩ := suggestMatches_mem _ query limit w hw
    obtain ⟨v, hv, hcon⟩ := (mem_buildIndex encode wordsArray k w).mp hwk
    exact ⟨v, hv, hcon.1⟩
  · intro w hw
    obtain ⟨r, hr, hwr⟩ := getAllSuggestions_mem rs query w hw
    exact hrs r hr w hwr

/-- C9 witness. -/
theorem returned_words_witness :
    (∀ r ∈ [Settled.fulfilled ["chat"]], ∀ w ∈ contributedList r,
        ∃ v ∈ ["chat"], w = jsTrim v) ∧
    ((∀ w ∈ suggestMatches
          ⟨true, fun _ => some "K", buildIndex (fun _ => some "K") ["chat"]⟩ "chat" 5,
        ∃ v ∈ ["chat"], w = jsTrim v) ∧
      ∀ w ∈ getAllSuggestions [Settled.fulfilled ["chat"]] "chat",
        ∃ v ∈ ["chat"], w = jsTrim v) :=
  ⟨by decide, returned_words_come_from_source (fun _ => some "K") ["chat"] "chat" 5 true
    [Settled.fulfilled ["chat"]] (by decide)⟩

/-- C6: On deduplicated word sets, `mergeWords` is an idempotent union:
remerging the same set, or any subset of it, leaves every bucket unchanged,
and the merged bucket holds exactly the union of the previously stored words
and the new words. -/
theorem mergeWords_idempotent_union (s : Store) (c : String) (S T : List String)
    (hS : S.Nodup) (hT : ∀ x ∈ T, x ∈ S) :
    mergeWords (mergeWords s c S) c S = mergeWords s c S ∧
    mergeWords (mergeWords s c S) c T = mergeWords s c S ∧
    ∀ x, x ∈ mergeWords s c S c ↔ x ∈ s c ∨ x ∈ S := by
  refine ⟨mergeWords_absorb s c S S hS (fun x hx => hx),
    mergeWords_absorb s c S T hS hT, fun x => ?_⟩
  rw [mem_mergeWords]
  simp

/-- C6 witness. -/
theorem mergeWords_idempotent_union_witness :
    ((["a", "b"] : List String).Nodup ∧ (∀ x ∈ ["b"], x ∈ (["a", "b"] : List String))) ∧
    (mergeWords (mergeWords emptyStore "K" ["a", "b"]) "K" ["a", "b"]
        = mergeWords emptyStore "K" ["a", "b"] ∧
      mergeWords (mergeWords emptyStore "K" ["a", "b"]) "K" ["b"]
        = mergeWords emptyStore "K" ["a", "b"] ∧
      ∀ x, x ∈ mergeWords emptyStore "K" ["a", "b"] "K" ↔
        x ∈ emptyStore "K" ∨ x ∈ (["a", "b"] : List String)) :=
  ⟨⟨by decide, by decide⟩,
    mergeWords_idempotent_union emptyStore "K" ["a", "b"] ["b"] (by decide) (by decide)⟩

/-- C3, the claim as written: after a complete build, the bucket for `c`
would contain exactly the trimmed and LOWER-CASED source words encoding to
`c`. -/
def bucketClaimAsWritten (encode : String → Option String) (wordsArray : List String) : Prop :=
  ∀ c x, x ∈ buildIndex encode wordsArray c ↔
    ∃ w ∈ wordsArray, jsTrim w ≠ "" ∧ x = jsToLower (jsTrim w) ∧
      encode (jsToLower (jsTrim w)) = some c

/-- C3 counterexample: with the constant encoder and source list `["Chat"]`,
the bucket for `"K"` holds the trimmed ORIGINAL-casing surface form `"Chat"`,
not the lower-cased `"chat"` the claim requires, so the claim as written is
false. -/
theorem bucket_claim_counterexample :
    ¬bucketClaimAsWritten (fun _ => some "K") ["Chat"] := by
  intro h
  have h2 := (h "K" "chat").mpr ⟨"Chat", by decide⟩
  exact absurd h2 (by decide)

/-- C3 (amended): after a complete build, the bucket for every code `c`
contains exactly the trimmed, original-casing source words `w` whose trim is
nonempty and whose lower-casing encodes to `c` — deduplicated by exact
(case-sensitive) string identity, each exactly once; words empty after trim,
and words whose encoding throws, are absent from every bucket. -/
theorem buildIndex_bucket_exact (encode : String → Option String) (wordsArray : List String)
    (c : String) :
    (∀ x, x ∈ buildIndex encode wordsArray c ↔
      ∃ w ∈ wordsArray, x = jsTrim w ∧ jsTrim w ≠ "" ∧
        encode (jsToLower (jsTrim w)) = some c) ∧
    (buildIndex encode wordsArray c).Nodup :=
  ⟨fun x => mem_buildIndex encode wordsArray c x, nodup_buildIndex encode wordsArray c⟩

/-- C2 counterexample: a run whose only batch write fails (the flush at
index 0 is attempted — the run's flush count is 1 — and the oracle fails
every flush) still sets the durable flag: `writeBatch` swallows the error,
`_doInitialize` proceeds to `markAsInitialized`, and `built` ends `true`
over a store in which nothing was committed (the bucket for `"K"` is
empty). -/
theorem built_despite_write_failure :
    (∃ n, n < (buildWords (fun _ => some "K") (fun _ => true) emptyStore ["chat"]).2 ∧
        (fun (_ : Nat) => true) n = true) ∧
    (doInit ⟨false, false, false, emptyStore⟩ (fun _ => some "K")
        ⟨FetchOutcome.ok ["chat"], fun _ => true⟩).1.built = true ∧
    (doInit ⟨false, false, false, emptyStore⟩ (fun _ => some "K")
        ⟨FetchOutcome.ok ["chat"], fun _ => true⟩).1.store "K" = [] :=
  ⟨⟨0, by decide, rfl⟩, by decide, by decide⟩

/-- C2 (amended): the durable flag is set by a run exactly when obtaining
the word list succeeds: a build interrupted by a thrown error (fetch/parse
failure) leaves `built` false and the store untouched, and a subsequent
restart re-runs the build (recomputing the store via `buildWords`); once a
run has set `built`, a restart skips the build.  A failed batch bucket
write, however, is caught and logged inside `writeBatch` and does not
prevent `markAsInitialized`. -/
theorem built_only_on_clean_build (st : InitState) (encode : String → Option String)
    (env : BuildEnv) (h1 : st.isInitializing = false) (h2 : st.isReady = false)
    (h3 : st.built = false) :
    ((doInit st encode env).1.built = true ↔ fetchFailedB env.fetch = false) ∧
    (fetchFailedB env.fetch = true →
      (doInit st encode env).1.built = false ∧ (doInit st encode env).1.isReady = false ∧
        (doInit st encode env).1.store = st.store) ∧
    (fetchFailedB env.fetch = true → ∀ wordsArray flushFails,
      doInit (restartState (doInit st encode env).1) encode
          ⟨FetchOutcome.ok wordsArray, flushFails⟩
        = ({ isReady := true, isInitializing := false, built := true,
             store := (buildWords encode flushFails st.store wordsArray).1 }, Except.ok ())) ∧
    (fetchFailedB env.fetch = false → ∀ env2,
      doInit (restartState (doInit st encode env).1) encode env2
        = ({ isReady := true, isInitializing := false, built := true,
             store := (doInit st encode env).1.store }, Except.ok ())) := by
  obtain ⟨fetch, ff⟩ := env
  cases fetch <;>
    simp [doInit, buildAndStorePhoneticIndex, fetchFailedB, restartState, h1, h2, h3]

/-- C2 witness (for the amended theorem). -/
theorem built_only_on_clean_build_witness :
    ((⟨false, false, false, emptyStore⟩ : InitState).isInitializing = false ∧
      (⟨false, false, false, emptyStore⟩ : InitState).isReady = false ∧
      (⟨false, false, false, emptyStore⟩ : InitState).built = false) ∧
    (((doInit ⟨false, false, false, emptyStore⟩ (fun _ => some "K")
          ⟨FetchOutcome.invalidJson, fun _ => false⟩).1.built = true ↔
        fetchFailedB (⟨FetchOutcome.invalidJson, fun _ => false⟩ : BuildEnv).fetch = false) ∧
      (fetchFailedB (⟨FetchOutcome.invalidJson, fun _ => false⟩ : BuildEnv).fetch = true →
        (doInit ⟨false, false, false, emptyStore⟩ (fun _ => some "K")
            ⟨FetchOutcome.invalidJson, fun _ => false⟩).1.built = false ∧
          (doInit ⟨false, false, false, emptyStore⟩ (fun _ => some "K")
              ⟨FetchOutcome.invalidJson, fun _ => false⟩).1.isReady = false ∧
          (doInit ⟨false, false, false, emptyStore⟩ (fun _ => some "K")
              ⟨FetchOutcome.invalidJson, fun _ => false⟩).1.store
            = (⟨false, false, false, emptyStore⟩ : InitState).store) ∧
      (fetchFailedB (⟨FetchOutcome.invalidJson, fun _ => false⟩ : BuildEnv).fetch = true →
        ∀ wordsArray flushFails,
          doInit (restartState (doInit ⟨false, false, false, emptyStore⟩ (fun _ => some "K")
                ⟨FetchOutcome.invalidJson, fun _ => false⟩).1) (fun _ => some "K")
              ⟨FetchOutcome.ok wordsArray, flushFails⟩
            = ({ isReady := true, isInitializing := false, built := true,
                 store := (buildWords (fun _ => some "K") flushFails
                   (⟨false, false, false, emptyStore⟩ : InitState).store wordsArray).1 },
                Except.ok ())) ∧
      (fetchFailedB (⟨FetchOutcome.invalidJson, fun _ => false⟩ : BuildEnv).fetch = false →
        ∀ env2,
          doInit (restartState (doInit ⟨false, false, false, emptyStore⟩ (fun _ => some "K")
                ⟨FetchOutcome.invalidJson, fun _ => false⟩).1) (fun _ => some "K") env2
            = ({ isReady := true, isInitializing := false, built := true,
                 store := (doInit ⟨false, false, false, emptyStore⟩ (fun _ => some "K")
                   ⟨FetchOutcome.invalidJson, fun _ => false⟩).1.store }, Except.ok ()))) :=
  ⟨⟨rfl, rfl, rfl⟩,
    built_only_on_clean_build ⟨false, false, false, emptyStore⟩ (fun _ => some "K")
      ⟨FetchOutcome.invalidJson, fun _ => false⟩ rfl rfl rfl⟩

/-- C7: If the word source cannot be fetched or parsed (fetch rejection,
non-OK response, or non-array JSON), the build aborts before writing (the
store is unchanged), the durable flag stays false, the searcher does not
become ready, and the error propagates as a rejection to the `initialize()`
caller rather than being swallowed. -/
theorem build_failure_aborts (st : InitState) (encode : String → Option String)
    (env : BuildEnv) (h1 : st.isInitializing = false) (h2 : st.isReady = false)
    (h3 : st.built = false) (h4 : fetchFailedB env.fetch = true) :
    (doInit st encode env).1.built = false ∧
    (doInit st encode env).1.isReady = false ∧
    (doInit st encode env).1.store = st.store ∧
    (∃ e, (doInit st encode env).2 = Except.error e) ∧
    ∀ n, (initOnce ⟨none, st, n⟩ encode env).2 = (doInit st encode env).2 := by
  obtain ⟨fetch, ff⟩ := env
  cases fetch <;>
    simp_all [doInit, buildAndStorePhoneticIndex, fetchFailedB, initOnce]

/-- C7 witness. -/
theorem build_failure_aborts_witness :
    ((⟨false, false, false, emptyStore⟩ : InitState).isInitializing = false ∧
      (⟨false, false, false, emptyStore⟩ : InitState).isReady = false ∧
      (⟨false, false, false, emptyStore⟩ : InitState).built = false ∧
      fetchFailedB (⟨FetchOutcome.fetchRejected, fun _ => false⟩ : BuildEnv).fetch = true) ∧
    ((doInit ⟨false, false, false, emptyStore⟩ (fun _ => some "K")
        ⟨FetchOutcome.fetchRejected, fun _ => false⟩).1.built = false ∧
      (doInit ⟨false, false, false, emptyStore⟩ (fun _ => some "K")
          ⟨FetchOutcome.fetchRejected, fun _ => false⟩).1.isReady = false ∧
      (doInit ⟨false, false, false, emptyStore⟩ (fun _ => some "K")
          ⟨FetchOutcome.fetchRejected, fun _ => false⟩).1.store
        = (⟨false, false, false, emptyStore⟩ : InitState).store ∧
      (∃ e, (doInit ⟨false, false, false, emptyStore⟩ (fun _ => some "K")
          ⟨FetchOutcome.fetchRejected, fun _ => false⟩).2 = Except.error e) ∧
      ∀ n, (initOnce ⟨none, ⟨false, false, false, emptyStore⟩, n⟩ (fun _ => some "K")
          ⟨FetchOutcome.fetchRejected, fun _ => false⟩).2
        = (doInit ⟨false, false, false, emptyStore⟩ (fun _ => some "K")
            ⟨FetchOutcome.fetchRejected, fun _ => false⟩).2) :=
  ⟨⟨rfl, rfl, rfl, rfl⟩,
    build_failure_aborts ⟨false, false, false, emptyStore⟩ (fun _ => some "K")
      ⟨FetchOutcome.fetchRejected, fun _ => false⟩ rfl rfl rfl rfl⟩

/-- C8: The `_doInitialize` body runs at most once per process lifetime:
calling `initialize()` on a fresh searcher runs it once and caches the
settled outcome, and every later call — with any encoder or environment, as
concurrent callers that share the stored promise do — returns exactly the
first run's outcome with the searcher unchanged (in particular the build is
not re-run). -/
theorem init_runs_once (s : SearcherMemo) (encode encode2 : String → Option String)
    (env env2 : BuildEnv) (h : s.storedPromise = none) :
    initOnce (initOnce s encode env).1 encode2 env2 = initOnce s encode env ∧
    (initOnce s encode env).1.storedPromise = some (initOnce s encode env).2 ∧
    (initOnce s encode env).1.doInitRuns = s.doInitRuns + 1 ∧
    ∀ t outcome, t.storedPromise = some outcome →
      ∀ encode3 env3, initOnce t encode3 env3 = (t, outcome) := by
  refine ⟨?_, ?_, ?_, ?_⟩
  · simp [initOnce, h]
  · simp [initOnce, h]
  · simp [initOnce, h]
  · intro t outcome ht encode3 env3
    simp [initOnce, ht]

/-- C8 witness. -/
theorem init_runs_once_witness :
    (⟨none, ⟨false, false, false, emptyStore⟩, 0⟩ : SearcherMemo).storedPromise = none ∧
    (initOnce (initOnce ⟨none, ⟨false, false, false, emptyStore⟩, 0⟩ (fun _ => some "K")
          ⟨FetchOutcome.ok [], fun _ => false⟩).1 (fun _ => some "") ⟨FetchOutcome.invalidJson, fun _ => true⟩
        = initOnce ⟨none, ⟨false, false, false, emptyStore⟩, 0⟩ (fun _ => some "K")
            ⟨FetchOutcome.ok [], fun _ => false⟩ ∧
      (initOnce ⟨none, ⟨false, false, false, emptyStore⟩, 0⟩ (fun _ => some "K")
          ⟨FetchOutcome.ok [], fun _ => false⟩).1.storedPromise
        = some (initOnce ⟨none, ⟨false, false, false, emptyStore⟩, 0⟩ (fun _ => some "K")
            ⟨FetchOutcome.ok [], fun _ => false⟩).2 ∧
      (initOnce ⟨none, ⟨false, false, false, emptyStore⟩, 0⟩ (fun _ => some "K")
          ⟨FetchOutcome.ok [], fun _ => false⟩).1.doInitRuns
        = (⟨none, ⟨false, false, false, emptyStore⟩, 0⟩ : SearcherMemo).doInitRuns + 1 ∧
      ∀ t outcome, t.storedPromise = some outcome →
        ∀ encode3 env3, initOnce t encode3 env3 = (t, outcome)) :=
  ⟨rfl,
    init_runs_once ⟨none, ⟨false, false, false, emptyStore⟩, 0⟩ (fun _ => some "K")
      (fun _ => some "") ⟨FetchOutcome.ok [], fun _ => false⟩
      ⟨FetchOutcome.invalidJson, fun _ => true⟩ rfl⟩

end PhoneticPredict
